import Mathlib

/-!
Verification of the VictoryDB in-memory write path core (arena allocator,
skip-list node layout, epoch-based reclamation scratch design).

The Rust sources are shallowly embedded: `usize` arithmetic is `Nat` with an
explicit `% 2 ^ 64` where the source can wrap, fallible operations return
`Except`/`Option`, and the concurrent code is given its sequential semantics
(every compare-and-swap succeeds, loads see the latest store).  Machine
pointers are represented arena-relatively as a `(chunk index, offset)` pair,
matching the "arena-relative integer offsets" substitution the design notes
prescribe; byte memory is a function from addresses to byte values.
-/

namespace VictoryDB

/-- Width of `usize` on the target: 2^64. -/
def USIZE : Nat := 2 ^ 64

/-! ## Arena (src/storage/memory/mod.rs, arena.rs, allocator.rs) -/

/-- Mirrors `ArenaPolicy { block_size, cap }` from `storage/memory/mod.rs`. -/
structure ArenaPolicy where
  block_size : Nat
  cap : Nat
  deriving DecidableEq

/-- Constants from `storage/memory/mod.rs` (note the source sets `MB = KB`). -/
def KB : Nat := 1000

def MB : Nat := KB

def DEFAULT_ARENA_CAP : Nat := 64 * MB

def SMALL_ARENA_CAP : Nat := 16 * MB

def MEDIUM_ARENA_CAP : Nat := 32 * MB

def DEFAULT_ARENA_BLOCK_SIZE : Nat := 2 * MB

def LARGE_ARENA_BLOCK_SIZE : Nat := 8 * MB

def MEDIUM_ARENA_BLOCK_SIZE : Nat := 4 * MB

def SMALL_ARENA_BLOCK_SIZE : Nat := 1 * MB

/-- Mirrors `enum ArenaSize` from `storage/memory/mod.rs`. -/
inductive ArenaSize where
  | Test (block cap : Nat)
  | Default
  | Small
  | Medium
  | Large
  deriving DecidableEq

/-- Mirrors `ArenaSize::to_policy`. -/
def ArenaSize.toPolicy : ArenaSize → ArenaPolicy
  | .Test block cap => ⟨block, cap⟩
  | .Default => ⟨DEFAULT_ARENA_BLOCK_SIZE, DEFAULT_ARENA_CAP⟩
  | .Small => ⟨SMALL_ARENA_BLOCK_SIZE, SMALL_ARENA_CAP⟩
  | .Medium => ⟨MEDIUM_ARENA_BLOCK_SIZE, MEDIUM_ARENA_CAP⟩
  | .Large => ⟨LARGE_ARENA_BLOCK_SIZE, DEFAULT_ARENA_CAP⟩

/-- Mirrors `enum ArenaError` from `storage/memory/arena.rs`. -/
inductive ArenaError where
  | AllocationError (size : Nat)
  | Overflow
  | ChunkDoubleCheckFailed
  | ArenaFull
  deriving DecidableEq

/-- Mirrors `std::alloc::Layout`: a size and an alignment (the Rust type
guarantees the alignment is a nonzero power of two; theorems that rely on
this carry it as a hypothesis, as the source does via `debug_assert!`). -/
structure Layout where
  size : Nat
  align : Nat
  deriving DecidableEq

/-- A chunk is the byte block handed out by the chunk allocator; in debug
builds `SystemAllocator::allocate` fills the block with `1u8`
(`storage/memory/allocator.rs`), which we take as the chunk contents. -/
def allocatorAllocate (size : Nat) : List Nat := List.replicate size 1

/-- Mirrors `struct Arena` from `storage/memory/arena.rs`.  The
`current_chunk`/`end` raw pointers always designate the last entry of
`chunks`, so they are represented implicitly by that entry; `bump`,
`allocated_bytes` and `memory_used` are the atomic counters. -/
structure Arena where
  chunks : List (List Nat)
  bump : Nat
  allocated_bytes : Nat
  memory_used : Nat
  policy : ArenaPolicy
  deriving DecidableEq

/-- Mirrors `Arena::new`: reserve one initial chunk of `block_size` bytes and
record it in `allocated_bytes`. -/
def Arena.new (size : ArenaSize) : Arena :=
  let policy := size.toPolicy
  { chunks := [allocatorAllocate policy.block_size]
    bump := 0
    allocated_bytes := policy.block_size
    memory_used := 0
    policy := policy }

/-- Mirrors `usize::checked_add`. -/
def checkedAdd (a b : Nat) : Option Nat :=
  if a + b < USIZE then some (a + b) else none

/-- Mirrors `Arena::alignment_check`: round `bump` up to the alignment with
the bit trick `(bump + (align - 1)) & !(align - 1)` (the complement of
`align - 1` in 64 bits is `2 ^ 64 - align` for a power-of-two `align`; the
addition wraps as in release-mode Rust), then check the request still fits in
the current chunk. -/
def alignmentCheck (p : ArenaPolicy) (bump : Nat) (l : Layout) :
    Except ArenaError (Nat × Nat) :=
  let aligned := Nat.land ((bump + (l.align - 1)) % USIZE) (USIZE - l.align)
  match checkedAdd aligned l.size with
  | none => .error .Overflow
  | some next =>
    if next > p.block_size then .error .Overflow
    else .ok (aligned, next)

/-- Mirrors `Arena::try_new_chunk`: under the chunk lock, re-run the
alignment check (another thread may have rotated already); if it still fails,
refuse with `ArenaFull` when one more block would exceed the cap, otherwise
charge the budget, push a fresh chunk and reset the bump cursor. -/
def tryNewChunk (s : Arena) (l : Layout) : Except ArenaError Arena :=
  match alignmentCheck s.policy s.bump l with
  | .ok _ => .ok s
  | .error _ =>
    if s.allocated_bytes + s.policy.block_size > s.policy.cap then
      .error .ArenaFull
    else
      .ok { s with
        allocated_bytes := s.allocated_bytes + s.policy.block_size
        chunks := s.chunks ++ [allocatorAllocate s.policy.block_size]
        bump := 0 }

/-- An arena pointer, arena-relatively: which chunk and which byte offset
inside it.  `Arena::alloc_raw` returns `current_chunk + aligned`, i.e. the
offset `aligned` inside the most recent chunk. -/
structure APtr where
  chunk : Nat
  off : Nat
  deriving DecidableEq

/-- Mirrors the `loop` of `Arena::alloc_raw` under sequential semantics (the
CAS on the bump cursor always succeeds, so each iteration either returns or
rotates in a new chunk).  The recursion is paid for by `fuel`, consumed only
on the rotation path; `Arena.allocRaw` supplies fuel that provably never runs
out. -/
def allocRawFuel (l : Layout) : Nat → Arena → Option (Except ArenaError APtr × Arena)
  | fuel, s =>
    match alignmentCheck s.policy s.bump l with
    | .ok an =>
      some (.ok ⟨s.chunks.length - 1, an.1⟩,
        { s with bump := an.2, memory_used := s.memory_used + l.size })
    | .error _ =>
      match tryNewChunk s l with
      | .error e => some (.error e, s)
      | .ok s1 =>
        match fuel with
        | 0 => none
        | f + 1 => allocRawFuel l f s1

/-- Mirrors `Arena::alloc_raw`.  `policy.cap` rotations always suffice
(each rotation charges at least one byte of budget when `block_size > 0`). -/
def Arena.allocRaw (s : Arena) (l : Layout) :
    Option (Except ArenaError APtr × Arena) :=
  allocRawFuel l s.policy.cap s

/-- The byte a previously returned pointer addresses. -/
def byteAt (s : Arena) (p : APtr) : Option Nat :=
  match s.chunks.get? p.chunk with
  | some c => c.get? p.off
  | none => none

/-- Runs `alloc_raw` on each layout in turn, recording the results. -/
def allocSeq (s : Arena) : List Layout → List (Option (Except ArenaError APtr)) × Arena
  | [] => ([], s)
  | l :: ls =>
    match s.allocRaw l with
    | none => ([none], s)
    | some (r, s1) =>
      let rest := allocSeq s1 ls
      (some r :: rest.1, rest.2)

/-- Runs `m` calls of `alloc_raw` with a fixed layout, requiring every call
to succeed. -/
def allocRepeat : Nat → Arena → Layout → Option Arena
  | 0, s, _ => some s
  | m + 1, s, l =>
    match s.allocRaw l with
    | some (.ok _, s1) => allocRepeat m s1 l
    | _ => none

/-- How much a single `alloc_raw` call adds to the `memory_used` counter: the
layout size on success, nothing on failure. -/
def allocDelta (l : Layout) : Except ArenaError APtr → Nat
  | .ok _ => l.size
  | .error _ => 0

/-- Arena states reachable from `Arena::new` by any sequence of `alloc_raw`
calls. -/
inductive Reachable (size : ArenaSize) : Arena → Prop where
  | base : Reachable size (Arena.new size)
  | step {s : Arena} {l : Layout} {r : Except ArenaError APtr} {s1 : Arena} :
      Reachable size s → s.allocRaw l = some (r, s1) → Reachable size s1

/-! ## Skip-list node layout (src/storage/memtable/skip_list.rs)

A node is one arena allocation: `repr(C)` header `{height: u16, key_len: u16,
value_len: u32, tower: [AtomicPtr<Node>; 0]}` (size 8, align 8, `tower` at
offset 8), then `height` eight-byte tower slots, then key bytes, then value
bytes.  Node memory is modelled as a byte store, written little-endian the
way `ptr::write` lays the fields out. -/

/-- Byte memory: address to byte value. -/
def Mem : Type := Nat → Nat

/-- Store one byte. -/
def wbyte (m : Mem) (a b : Nat) : Mem := fun x => if x = a then b else m x

/-- Store a `u16` little-endian. -/
def w16 (m : Mem) (a v : Nat) : Mem :=
  wbyte (wbyte m a (v % 2 ^ 8)) (a + 1) (v / 2 ^ 8 % 2 ^ 8)

/-- Store a `u32` little-endian. -/
def w32 (m : Mem) (a v : Nat) : Mem :=
  w16 (w16 m a (v % 2 ^ 16)) (a + 2) (v / 2 ^ 16 % 2 ^ 16)

/-- Store a `u64` (one tower pointer) little-endian. -/
def w64 (m : Mem) (a v : Nat) : Mem :=
  w32 (w32 m a (v % 2 ^ 32)) (a + 4) (v / 2 ^ 32 % 2 ^ 32)

/-- Read back a `u16`. -/
def r16 (m : Mem) (a : Nat) : Nat := m a + 2 ^ 8 * m (a + 1)

/-- Read back a `u32`. -/
def r32 (m : Mem) (a : Nat) : Nat := r16 m a + 2 ^ 16 * r16 m (a + 2)

/-- Read back a `u64`. -/
def r64 (m : Mem) (a : Nat) : Nat := r32 m a + 2 ^ 32 * r32 m (a + 4)

namespace Node

/-- `HEAD_HEIGHT` from skip_list.rs. -/
def HEAD_HEIGHT : Nat := 8

/-- `size_of::<Node>()`: the `repr(C)` header occupies 8 bytes. -/
def headerSize : Nat := 8

/-- `offset_of!(Node, tower)`. -/
def towerOffset : Nat := 8

/-- `size_of::<AtomicPtr<Node>>()` on the 64-bit target. -/
def ptrSize : Nat := 8

/-- The `ptr::write(node, Node { height, key_len, value_len, tower: [] })` of
`Node::init_node`: `height` at offset 0, `key_len` at 2, `value_len` at 4. -/
def writeHeader (m : Mem) (a h kl vl : Nat) : Mem :=
  w32 (w16 (w16 m a h) (a + 2) kl) (a + 4) vl

/-- The `for i in 0..height` loop of `Node::init_node`: write a null pointer
into each tower slot `tower_ptr(node).add(i)`. -/
def towerInit (m : Mem) (base : Nat) : Nat → Mem
  | 0 => m
  | i + 1 => w64 (towerInit m base i) (base + ptrSize * i) 0

/-- Mirrors `Node::init_node` at node address `a`. -/
def init_node (m : Mem) (a h kl vl : Nat) : Mem :=
  towerInit (writeHeader m a h kl vl) (a + towerOffset) h

/-- Reading the `height` field (`(*node).height`). -/
def heightOf (m : Mem) (a : Nat) : Nat := r16 m a

/-- Reading the `key_len` field. -/
def keyLenOf (m : Mem) (a : Nat) : Nat := r16 m (a + 2)

/-- Reading the `value_len` field. -/
def valueLenOf (m : Mem) (a : Nat) : Nat := r32 m (a + 4)

/-- Reading tower slot `i` (`tower_ptr(node).add(i)`). -/
def towerSlot (m : Mem) (a i : Nat) : Nat := r64 m (a + towerOffset + ptrSize * i)

/-- Mirrors `Node::key_ptr`: the tower pointer cast to bytes, advanced by
`height * size_of::<AtomicPtr<Node>>()`. -/
def key_ptr (m : Mem) (a : Nat) : Nat :=
  (a + towerOffset) + heightOf m a * ptrSize

/-- Mirrors `Node::value_ptr` as written in the source: it advances
`key_ptr` by the node's `value_len` field. -/
def value_ptr (m : Mem) (a : Nat) : Nat :=
  key_ptr m a + valueLenOf m a

/-- `Layout::extend`: pad the first layout's size up to the second one's
alignment (a nonzero power of two), returning the combined layout and the
offset at which the second part begins. -/
def layoutExtend (a b : Layout) : Layout × Nat :=
  let offset := (a.size + b.align - 1) / b.align * b.align
  (⟨offset + b.size, max a.align b.align⟩, offset)

/-- `Layout::new::<Node>()`. -/
def baseLayout : Layout := ⟨headerSize, 8⟩

/-- Mirrors `Node::build_layout`: header, then `[AtomicPtr<Node>; height]`,
then `[u8; key_len]`, then `[u8; value_len]`. -/
def build_layout (height key_len value_len : Nat) : Layout :=
  let l1 := (layoutExtend baseLayout ⟨ptrSize * height, 8⟩).1
  let l2 := (layoutExtend l1 ⟨key_len, 1⟩).1
  (layoutExtend l2 ⟨value_len, 1⟩).1

/-- Offset of the key bytes inside `build_layout`'s allocation (the offset
returned by the `extend` with the key array). -/
def keyOffsetOfLayout (height key_len : Nat) : Nat :=
  (layoutExtend (layoutExtend baseLayout ⟨ptrSize * height, 8⟩).1 ⟨key_len, 1⟩).2

/-- Offset of the value bytes inside `build_layout`'s allocation (the offset
returned by the `extend` with the value array). -/
def valueOffsetOfLayout (height key_len value_len : Nat) : Nat :=
  (layoutExtend (layoutExtend (layoutExtend baseLayout ⟨ptrSize * height, 8⟩).1
    ⟨key_len, 1⟩).1 ⟨value_len, 1⟩).2

end Node

/-! ## Epoch-based reclamation (src/utils/ebr/scratch.rs)

The scratch EBR design: a global epoch plus a registry of per-thread
participants, each holding a local epoch and a guarded flag.  `Local::pin`
is given its sequential semantics: the loads see the state passed in and the
final `compare_exchange` succeeds. -/

namespace Ebr

/-- Mirrors `struct Local` (the `Arc<Global>` back-reference is implicit in
passing the global state to `pin`). -/
structure Local where
  local_epoch : Nat
  guarded : Bool
  deriving DecidableEq

/-- Mirrors `struct Global`: the global epoch and the participant registry. -/
structure Global where
  global_epoch : Nat
  local_list : List Local
  deriving DecidableEq

/-- Mirrors `Local::pin` for the participant at index `i`: record the global
epoch as the local epoch, set `guarded`, then scan the registry — returning
early (epoch untouched) at the first guarded participant whose local epoch
lags the observed global epoch, and otherwise advancing the global epoch by
the `compare_exchange`. -/
def pin (g : Global) (i : Nat) : Global :=
  let e := g.global_epoch
  let locals := g.local_list.set i ⟨e, true⟩
  if locals.any (fun l => l.guarded && decide (l.local_epoch < e)) then
    { global_epoch := e, local_list := locals }
  else
    { global_epoch := e + 1, local_list := locals }

end Ebr

/-! ## Helper lemmas -/

/-- Clearing the low `k` bits of `x` (an and with `2 ^ n - 2 ^ k`, the 64-bit
complement of `align - 1` when `n = 64` and `align = 2 ^ k`) rounds `x` down
to a multiple of `2 ^ k`. -/
theorem land_mask (x k n : Nat) (hk : k ≤ n) (hx : x < 2 ^ n) :
    Nat.land x (2 ^ n - 2 ^ k) = 2 ^ k * (x / 2 ^ k) := by
  have h1 : 2 ^ n - 2 ^ k = (2 ^ (n - k) - 1) <<< k := by
    rw [Nat.shiftLeft_eq, Nat.sub_one_mul, ← Nat.pow_add, Nat.sub_add_cancel hk]
  have h2 : 2 ^ k * (x / 2 ^ k) = (x >>> k) <<< k := by
    rw [Nat.shiftRight_eq_div_pow, Nat.shiftLeft_eq, Nat.mul_comm]
  apply Nat.eq_of_testBit_eq
  intro i
  rw [h1, h2]
  show (x &&& _).testBit i = _
  rw [Nat.testBit_land, Nat.testBit_shiftLeft, Nat.testBit_shiftLeft,
    Nat.testBit_two_pow_sub_one, Nat.testBit_shiftRight]
  by_cases hik : k ≤ i
  · by_cases hin : i < n
    · have hki : k + (i - k) = i := by omega
      simp [hik, hki]
      omega
    · have hxi : x.testBit i = false := by
        apply Nat.testBit_lt_two_pow
        calc x < 2 ^ n := hx
        _ ≤ 2 ^ i := Nat.pow_le_pow_right (by omega) (by omega)
      have hki : k + (i - k) = i := by omega
      simp [hxi, hki]
  · simp [hik]

/-- What a successful `alignment_check` returns: the bit-rounded offset, the
new cursor `aligned + size`, and the in-chunk bound on the new cursor. -/
theorem alignmentCheck_ok (p : ArenaPolicy) (b : Nat) (l : Layout) (a n : Nat)
    (h : alignmentCheck p b l = .ok (a, n)) :
    a = Nat.land ((b + (l.align - 1)) % USIZE) (USIZE - l.align) ∧
    n = a + l.size ∧ n ≤ p.block_size := by
  simp only [alignmentCheck, checkedAdd] at h
  split at h
  · exact absurd h (by simp)
  · next nx heq =>
    split at h
    · exact absurd h (by simp)
    · next hgt =>
      have hinj := Except.ok.inj h
      have ha := congrArg Prod.fst hinj
      have hn := congrArg Prod.snd hinj
      simp only [] at ha hn
      split at heq
      · next hlt =>
        have hadd := Option.some.inj heq
        refine ⟨ha.symm, by omega, by omega⟩
      · cases heq

/-- A successful alignment check returns an offset that is a multiple of a
power-of-two alignment. -/
theorem alignmentCheck_aligned (p : ArenaPolicy) (b : Nat) (l : Layout)
    (a n k : Nat) (hpow : l.align = 2 ^ k) (hk : k ≤ 64)
    (h : alignmentCheck p b l = .ok (a, n)) : a % l.align = 0 := by
  obtain ⟨ha, -, -⟩ := alignmentCheck_ok p b l a n h
  rw [ha, hpow, USIZE, land_mask _ k 64 hk (Nat.mod_lt _ (by positivity))]
  exact Nat.mul_mod_right _ _

/-- The two ways `try_new_chunk` can report success: the double check under
the lock passed (state untouched), or a fresh chunk was rotated in within
budget. -/
theorem tryNewChunk_ok_cases (s : Arena) (l : Layout) (s1 : Arena)
    (h : tryNewChunk s l = .ok s1) :
    ((∃ an, alignmentCheck s.policy s.bump l = .ok an) ∧ s1 = s) ∨
    (s.allocated_bytes + s.policy.block_size ≤ s.policy.cap ∧
      s1 = { s with
        allocated_bytes := s.allocated_bytes + s.policy.block_size
        chunks := s.chunks ++ [allocatorAllocate s.policy.block_size]
        bump := 0 }) := by
  unfold tryNewChunk at h
  split at h
  · next an heq => exact Or.inl ⟨⟨an, heq⟩, (Except.ok.inj h).symm⟩
  · split at h
    · exact absurd h (by simp)
    · next hfull => exact Or.inr ⟨by omega, (Except.ok.inj h).symm⟩

/-- When the double check still fails and the budget is exhausted,
`try_new_chunk` fails with `ArenaFull`. -/
theorem tryNewChunk_full (s : Arena) (l : Layout) (e : ArenaError)
    (herr : alignmentCheck s.policy s.bump l = .error e)
    (hcap : s.policy.cap < s.allocated_bytes + s.policy.block_size) :
    tryNewChunk s l = .error .ArenaFull := by
  unfold tryNewChunk
  rw [herr]
  simp [hcap]

/-- Master description of one `alloc_raw` run: policy unchanged, exact
`memory_used` accounting, chunk growth matching the budget charge, the bump
cursor bound, the cap bound, and offset alignment of a returned pointer. -/
theorem allocRawFuel_spec (l : Layout) (f : Nat) (s : Arena)
    (r : Except ArenaError APtr) (s1 : Arena)
    (h : allocRawFuel l f s = some (r, s1)) :
    s1.policy = s.policy ∧
    s1.memory_used = s.memory_used + allocDelta l r ∧
    (∃ d, s1.chunks = s.chunks ++ d ∧
      s1.allocated_bytes = s.allocated_bytes + d.length * s.policy.block_size) ∧
    (s1.bump ≤ s.policy.block_size ∨ s1.bump = s.bump) ∧
    (s1.allocated_bytes = s.allocated_bytes ∨
      s1.allocated_bytes ≤ s.policy.cap) ∧
    (∀ p, r = .ok p → ∀ k, l.align = 2 ^ k → k ≤ 64 → p.off % l.align = 0) := by
  induction f generalizing s with
  | zero =>
    rw [allocRawFuel] at h
    split at h
    · next an heq =>
      have hr := congrArg Prod.fst (Option.some.inj h)
      have hs := congrArg Prod.snd (Option.some.inj h)
      simp only [] at hr hs
      subst hs
      obtain ⟨-, hnext, hblock⟩ := alignmentCheck_ok _ _ _ _ _ heq
      refine ⟨rfl, by rw [← hr]; rfl, ⟨[], by simp⟩,
        Or.inl (by simpa using hblock), Or.inl rfl, ?_⟩
      intro p hp k hpow hk
      rw [← hr] at hp
      have hoff := congrArg APtr.off (Except.ok.inj hp)
      simp only [] at hoff
      rw [← hoff]
      exact alignmentCheck_aligned _ _ _ _ _ k hpow hk heq
    · split at h
      · next e htc =>
        have hr := congrArg Prod.fst (Option.some.inj h)
        have hs := congrArg Prod.snd (Option.some.inj h)
        simp only [] at hr hs
        subst hs
        refine ⟨rfl, by rw [← hr]; simp [allocDelta], ⟨[], by simp⟩,
          Or.inr rfl, Or.inl rfl, ?_⟩
        intro p hp
        rw [← hr] at hp
        cases hp
      · cases h
  | succ f ih =>
    rw [allocRawFuel] at h
    split at h
    · next an heq =>
      have hr := congrArg Prod.fst (Option.some.inj h)
      have hs := congrArg Prod.snd (Option.some.inj h)
      simp only [] at hr hs
      subst hs
      obtain ⟨-, hnext, hblock⟩ := alignmentCheck_ok _ _ _ _ _ heq
      refine ⟨rfl, by rw [← hr]; rfl, ⟨[], by simp⟩,
        Or.inl (by simpa using hblock), Or.inl rfl, ?_⟩
      intro p hp k hpow hk
      rw [← hr] at hp
      have hoff := congrArg APtr.off (Except.ok.inj hp)
      simp only [] at hoff
      rw [← hoff]
      exact alignmentCheck_aligned _ _ _ _ _ k hpow hk heq
    · next herr =>
      split at h
      · next e htc =>
        have hr := congrArg Prod.fst (Option.some.inj h)
        have hs := congrArg Prod.snd (Option.some.inj h)
        simp only [] at hr hs
        subst hs
        refine ⟨rfl, by rw [← hr]; simp [allocDelta], ⟨[], by simp⟩,
          Or.inr rfl, Or.inl rfl, ?_⟩
        intro p hp
        rw [← hr] at hp
        cases hp
      · next s2 htc =>
        obtain ⟨hpol, hmem, ⟨d, hch, hal⟩, hbump, hcap, halign⟩ := ih s2 h
        rcases tryNewChunk_ok_cases s l s2 htc with ⟨-, rfl⟩ | ⟨hbudget, rfl⟩
        · exact ⟨hpol, hmem, ⟨d, hch, hal⟩, hbump, hcap, halign⟩
        · simp only [] at hpol hmem hch hal hbump hcap
          refine ⟨hpol, hmem, ⟨allocatorAllocate s.policy.block_size :: d, ?_, ?_⟩,
            ?_, ?_, halign⟩
          · rw [hch]
            simp
          · rw [hal]
            simp [Nat.succ_mul]
            omega
          · rcases hbump with hb | hb
            · exact Or.inl hb
            · exact Or.inl (by rw [hb]; exact Nat.zero_le _)
          · rcases hcap with hc | hc
            · exact Or.inr (by omega)
            · exact Or.inr hc

/-- Invariants of every reachable arena state: the policy is the one the
arena was built with, every reserved chunk is one `block_size` charge of the
budget, the bump cursor stays within the current chunk, and (whenever the
policy itself fits, `block_size <= cap`) the budget never exceeds the cap. -/
theorem reachable_spec (size : ArenaSize) (s : Arena) (h : Reachable size s) :
    s.policy = size.toPolicy ∧
    s.chunks.length * s.policy.block_size = s.allocated_bytes ∧
    s.bump ≤ s.policy.block_size ∧
    (size.toPolicy.block_size ≤ size.toPolicy.cap →
      s.allocated_bytes ≤ s.policy.cap) := by
  induction h with
  | base =>
    refine ⟨rfl, ?_, Nat.zero_le _, fun hbc => hbc⟩
    simp [Arena.new, allocatorAllocate]
  | step hr hstep ih =>
    obtain ⟨hpol, hch0, hbump0, hcap0⟩ := ih
    obtain ⟨hpol1, -, ⟨d, hch, hal⟩, hbump1, hcap1, -⟩ :=
      allocRawFuel_spec _ _ _ _ _ hstep
    refine ⟨hpol1.trans hpol, ?_, ?_, ?_⟩
    · rw [hpol1, hch, hal, List.length_append, Nat.add_mul, hch0]
    · rcases hbump1 with hb | hb
      · rw [hpol1]; exact hb
      · rw [hpol1, hb]; exact hbump0
    · intro hbc
      rcases hcap1 with hc | hc
      · rw [hpol1, hc]; exact hcap0 hbc
      · rw [hpol1]; exact hc

/-- Claim C1: evaluating `alloc_raw` on a request strictly larger than
`block_size` (size 11 against `policy = {block_size: 10, cap: 20}`) shows
the code does NOT propagate `Overflow`: the `Err(_)` arm discards the
alignment-check error, `try_new_chunk` rotates a fresh (useless) chunk in,
and the call finally fails with `ArenaFull` once the cap is exhausted,
leaving the arena with an extra chunk. -/
theorem C1_oversized_request_eval :
    (Arena.new (ArenaSize.Test 10 20)).allocRaw ⟨11, 1⟩ =
      some (.error .ArenaFull,
        { chunks := [List.replicate 10 1, List.replicate 10 1]
          bump := 0
          allocated_bytes := 20
          memory_used := 0
          policy := ⟨10, 20⟩ }) := rfl

/-- Claim C3: for every layout whose alignment is a power of two (and whose size
fits in a block), a successful `alloc_raw` returns a pointer whose offset is
a multiple of the alignment. -/
theorem C3_alloc_alignment (s : Arena) (l : Layout) (k : Nat)
    (hpow : l.align = 2 ^ k) (hk : k ≤ 64)
    (_hsize : l.size ≤ s.policy.block_size) (p : APtr) (s1 : Arena)
    (h : s.allocRaw l = some (.ok p, s1)) :
    p.off % l.align = 0 :=
  (allocRawFuel_spec l s.policy.cap s (.ok p) s1 h).2.2.2.2.2 p rfl k hpow hk

/-- Witness for C3 at a concrete input: the first 4-byte/align-4 allocation
of a fresh `Test(10, 20)` arena lands at offset 0. -/
theorem C3_alloc_alignment_witness : (0 : Nat) % 4 = 0 :=
  C3_alloc_alignment (Arena.new (ArenaSize.Test 10 20)) ⟨4, 4⟩ 2 rfl
    (by decide) (by decide) ⟨0, 0⟩
    (((Arena.new (ArenaSize.Test 10 20)).allocRaw ⟨4, 4⟩).getD
      (.error .Overflow, Arena.new (ArenaSize.Test 10 20))).2 rfl

/-- Claim C4 as stated is false: `Arena::new` reserves the initial chunk without
checking the policy, so a policy with `block_size > cap` (here `{30, 20}`)
yields a reachable state whose total reserved bytes already exceed the
cap. -/
theorem C4_cap_counterexample :
    Reachable (ArenaSize.Test 30 20) (Arena.new (ArenaSize.Test 30 20)) ∧
    (ArenaSize.Test 30 20).toPolicy.cap <
      (Arena.new (ArenaSize.Test 30 20)).allocated_bytes :=
  ⟨Reachable.base, by decide⟩

/-- Claim C4 (amended): for every arena whose policy satisfies
`block_size <= cap`, in every state reachable by `alloc_raw` calls the
reserved budget never exceeds `cap` and the bump cursor never exceeds
`block_size`; and a request that needs a new chunk when one more block would
exceed the cap fails with `ArenaFull`, leaving the state unchanged. -/
theorem C4_budget_invariant (size : ArenaSize) (s : Arena)
    (hbc : size.toPolicy.block_size ≤ size.toPolicy.cap)
    (h : Reachable size s) :
    s.allocated_bytes ≤ s.policy.cap ∧ s.bump ≤ s.policy.block_size ∧
    ∀ l e, alignmentCheck s.policy s.bump l = .error e →
      s.policy.cap < s.allocated_bytes + s.policy.block_size →
      s.allocRaw l = some (.error .ArenaFull, s) := by
  obtain ⟨-, -, hbump, hcap⟩ := reachable_spec size s h
  refine ⟨hcap hbc, hbump, ?_⟩
  intro l e herr hfull
  show allocRawFuel l s.policy.cap s = _
  rw [allocRawFuel, herr, tryNewChunk_full s l e herr hfull]

/-- Witness for C4 (amended) at the freshly built `Test(10, 20)` arena. -/
theorem C4_budget_invariant_witness :
    (Arena.new (ArenaSize.Test 10 20)).allocated_bytes ≤
      (Arena.new (ArenaSize.Test 10 20)).policy.cap :=
  (C4_budget_invariant (ArenaSize.Test 10 20) (Arena.new (ArenaSize.Test 10 20))
    (by decide) Reachable.base).1

/-- Claim C5: on `policy = {block_size: 10, cap: 20}`, allocating
(size 4, align 4), then (size 2, align 2), then (size 4, align 4) succeeds
throughout with exactly one rotation: the first two allocations sit in chunk
0 at offsets 0 and 4, the third in chunk 1 at offset 0, and the arena ends
up holding exactly two chunks. -/
theorem C5_rotation_trigger :
    (allocSeq (Arena.new (ArenaSize.Test 10 20))
      [⟨4, 4⟩, ⟨2, 2⟩, ⟨4, 4⟩]).1 =
      [some (.ok ⟨0, 0⟩), some (.ok ⟨0, 4⟩), some (.ok ⟨1, 0⟩)] ∧
    (allocSeq (Arena.new (ArenaSize.Test 10 20))
      [⟨4, 4⟩, ⟨2, 2⟩, ⟨4, 4⟩]).2.chunks.length = 2 :=
  ⟨rfl, rfl⟩

/-- Claim C6: `memory_used` accounting — every successful `alloc_raw` adds exactly
`layout.size` (padding excluded), a failed call leaves the counter
untouched, and `m` successful allocations of one layout add `m * size`. -/
theorem C6_memory_used_accounting :
    (∀ (s : Arena) (l : Layout) (p : APtr) (s1 : Arena),
      s.allocRaw l = some (.ok p, s1) →
      s1.memory_used = s.memory_used + l.size) ∧
    (∀ (s : Arena) (l : Layout) (e : ArenaError) (s1 : Arena),
      s.allocRaw l = some (.error e, s1) →
      s1.memory_used = s.memory_used) ∧
    (∀ (m : Nat) (s : Arena) (l : Layout) (s1 : Arena),
      allocRepeat m s l = some s1 →
      s1.memory_used = s.memory_used + m * l.size) := by
  have hone : ∀ (s : Arena) (l : Layout) (r : Except ArenaError APtr)
      (s1 : Arena), s.allocRaw l = some (r, s1) →
      s1.memory_used = s.memory_used + allocDelta l r :=
    fun s l r s1 h => (allocRawFuel_spec l s.policy.cap s r s1 h).2.1
  refine ⟨?_, ?_, ?_⟩
  · intro s l p s1 h
    simpa [allocDelta] using hone s l (.ok p) s1 h
  · intro s l e s1 h
    simpa [allocDelta] using hone s l (.error e) s1 h
  · intro m
    induction m with
    | zero =>
      intro s l s1 h
      have hs := Option.some.inj h
      simp [← hs]
    | succ m ih =>
      intro s l s1 h
      rw [allocRepeat] at h
      split at h
      · next p s2 hstep =>
        have h2 := hone s l (.ok p) s2 hstep
        have h1 := ih s2 l s1 h
        simp only [allocDelta] at h2
        rw [h1, h2, Nat.succ_mul]
        omega
      · cases h

/-- Witness for C6 at a concrete input: the first allocation of a fresh
`Test(10, 20)` arena raises `memory_used` from 0 by the layout size 4. -/
theorem C6_memory_used_accounting_witness : (4 : Nat) = 0 + 4 :=
  C6_memory_used_accounting.1 (Arena.new (ArenaSize.Test 10 20)) ⟨4, 4⟩
    ⟨0, 0⟩
    { chunks := [List.replicate 10 1], bump := 4, allocated_bytes := 10,
      memory_used := 4, policy := ⟨10, 20⟩ } rfl

/-- Claim C7: an actual chunk rotation (the double check under the lock still
fails, and `try_new_chunk` succeeds) appends exactly one chunk: every chunk
present before is still present unchanged at the same index, and every
previously returned pointer still addresses the same byte. -/
theorem C7_rotation_frame (s : Arena) (l : Layout) (e : ArenaError)
    (s1 : Arena) (herr : alignmentCheck s.policy s.bump l = .error e)
    (h : tryNewChunk s l = .ok s1) :
    s1.chunks.length = s.chunks.length + 1 ∧
    (∀ i, i < s.chunks.length → s1.chunks.get? i = s.chunks.get? i) ∧
    ∀ p : APtr, p.chunk < s.chunks.length → byteAt s1 p = byteAt s p := by
  rcases tryNewChunk_ok_cases s l s1 h with ⟨⟨an, hok⟩, -⟩ | ⟨-, rfl⟩
  · rw [herr] at hok
    cases hok
  · refine ⟨by simp, ?_, ?_⟩
    · intro i hi
      simp only []
      rw [List.get?_append hi]
    · intro p hp
      unfold byteAt
      simp only []
      rw [List.get?_append hp]

/-- Witness for C7: rotating the fresh `Test(10, 20)` arena (triggered by an
11-byte request) grows the chunk list from 1 to 2. -/
theorem C7_rotation_frame_witness :
    ({ chunks := [List.replicate 10 1, List.replicate 10 1], bump := 0,
       allocated_bytes := 20, memory_used := 0,
       policy := ⟨10, 20⟩ } : Arena).chunks.length =
      (Arena.new (ArenaSize.Test 10 20)).chunks.length + 1 :=
  (C7_rotation_frame (Arena.new (ArenaSize.Test 10 20)) ⟨11, 1⟩ .Overflow
    { chunks := [List.replicate 10 1, List.replicate 10 1], bump := 0,
      allocated_bytes := 20, memory_used := 0, policy := ⟨10, 20⟩ }
    rfl rfl).1

/-- Claim C10: in every reachable arena state, the number of chunks held times
`block_size` equals the `allocated_bytes` budget counter. -/
theorem C10_chunks_budget (size : ArenaSize) (s : Arena)
    (h : Reachable size s) :
    s.chunks.length * s.policy.block_size = s.allocated_bytes :=
  (reachable_spec size s h).2.1

/-- Witness for C10 at the freshly built `Test(10, 20)` arena. -/
theorem C10_chunks_budget_witness :
    (Arena.new (ArenaSize.Test 10 20)).chunks.length *
      (Arena.new (ArenaSize.Test 10 20)).policy.block_size =
      (Arena.new (ArenaSize.Test 10 20)).allocated_bytes :=
  C10_chunks_budget (ArenaSize.Test 10 20) (Arena.new (ArenaSize.Test 10 20))
    Reachable.base


/-! ## Byte-store lemmas for the node layout -/

/-- Writing one byte elsewhere does not change a read. -/
theorem wbyte_ne (m : Mem) (a b x : Nat) (hx : x ≠ a) : wbyte m a b x = m x := by
  simp [wbyte, hx]

/-- A `u16` store leaves bytes outside its two addresses unchanged. -/
theorem w16_frame (m : Mem) (a v x : Nat) (h1 : x ≠ a) (h2 : x ≠ a + 1) :
    w16 m a v x = m x := by
  unfold w16
  rw [wbyte_ne _ _ _ _ h2, wbyte_ne _ _ _ _ h1]

/-- A `u32` store leaves bytes outside its four addresses unchanged. -/
theorem w32_frame (m : Mem) (a v x : Nat) (hx : x < a ∨ a + 4 ≤ x) :
    w32 m a v x = m x := by
  unfold w32
  rw [w16_frame _ _ _ _ (by omega) (by omega),
    w16_frame _ _ _ _ (by omega) (by omega)]

/-- A `u64` store leaves bytes outside its eight addresses unchanged. -/
theorem w64_frame (m : Mem) (a v x : Nat) (hx : x < a ∨ a + 8 ≤ x) :
    w64 m a v x = m x := by
  unfold w64
  rw [w32_frame _ _ _ _ (by omega), w32_frame _ _ _ _ (by omega)]

/-- A `u16` read only looks at its two addresses. -/
theorem r16_eq_of (m1 m2 : Mem) (a : Nat)
    (h : ∀ x, a ≤ x → x < a + 2 → m1 x = m2 x) : r16 m1 a = r16 m2 a := by
  unfold r16
  rw [h a (by omega) (by omega), h (a + 1) (by omega) (by omega)]

/-- A `u32` read only looks at its four addresses. -/
theorem r32_eq_of (m1 m2 : Mem) (a : Nat)
    (h : ∀ x, a ≤ x → x < a + 4 → m1 x = m2 x) : r32 m1 a = r32 m2 a := by
  unfold r32
  rw [r16_eq_of m1 m2 a (fun x h1 h2 => h x (by omega) (by omega)),
    r16_eq_of m1 m2 (a + 2) (fun x h1 h2 => h x (by omega) (by omega))]

/-- A `u64` read only looks at its eight addresses. -/
theorem r64_eq_of (m1 m2 : Mem) (a : Nat)
    (h : ∀ x, a ≤ x → x < a + 8 → m1 x = m2 x) : r64 m1 a = r64 m2 a := by
  unfold r64
  rw [r32_eq_of m1 m2 a (fun x h1 h2 => h x (by omega) (by omega)),
    r32_eq_of m1 m2 (a + 4) (fun x h1 h2 => h x (by omega) (by omega))]

/-- A little-endian `u16` round-trips through the byte store. -/
theorem r16_w16 (m : Mem) (a v : Nat) (hv : v < 2 ^ 16) :
    r16 (w16 m a v) a = v := by
  simp [r16, w16, wbyte]
  omega

/-- A little-endian `u32` round-trips through the byte store. -/
theorem r32_w32 (m : Mem) (a v : Nat) (hv : v < 2 ^ 32) :
    r32 (w32 m a v) a = v := by
  unfold r32 w32
  rw [r16_eq_of _ (w16 m a (v % 2 ^ 16)) a
    (fun x h1 h2 => w16_frame _ _ _ _ (by omega) (by omega)),
    r16_w16 _ _ _ (by omega), r16_w16 _ _ _ (by omega)]
  omega

/-- A little-endian `u64` round-trips through the byte store. -/
theorem r64_w64 (m : Mem) (a v : Nat) (hv : v < 2 ^ 64) :
    r64 (w64 m a v) a = v := by
  unfold r64 w64
  rw [r32_eq_of _ (w32 m a (v % 2 ^ 32)) a
    (fun x h1 h2 => w32_frame _ _ _ _ (by omega)),
    r32_w32 _ _ _ (by omega), r32_w32 _ _ _ (by omega)]
  omega

/-- The tower-initialisation loop writes nothing below its base address. -/
theorem towerInit_frame (m : Mem) (base : Nat) (h x : Nat) (hx : x < base) :
    Node.towerInit m base h x = m x := by
  induction h with
  | zero => rfl
  | succ j ih =>
    show w64 (Node.towerInit m base j) (base + Node.ptrSize * j) 0 x = m x
    rw [w64_frame _ _ _ _ (Or.inl (by omega)), ih]

/-- After the loop, every initialised tower slot reads back as null. -/
theorem towerInit_slot (m : Mem) (base : Nat) :
    ∀ h i, i < h →
      r64 (Node.towerInit m base h) (base + Node.ptrSize * i) = 0 := by
  intro h
  induction h with
  | zero => intro i hi; exact absurd hi (Nat.not_lt_zero i)
  | succ j ih =>
    intro i hi
    show r64 (w64 (Node.towerInit m base j) (base + Node.ptrSize * j) 0)
      (base + Node.ptrSize * i) = 0
    by_cases hij : i = j
    · subst hij
      exact r64_w64 _ _ _ (by norm_num)
    · have hfr : r64 (w64 (Node.towerInit m base j) (base + Node.ptrSize * j) 0)
          (base + Node.ptrSize * i) =
          r64 (Node.towerInit m base j) (base + Node.ptrSize * i) := by
        apply r64_eq_of
        intro x hx1 hx2
        apply w64_frame
        simp only [Node.ptrSize] at hx1 hx2 ⊢
        omega
      rw [hfr]
      exact ih i (by omega)

/-- Claim C2 concerns a code bug: `Node::value_ptr` advances `key_ptr` by the
node's `value_len` field, while `Node::build_layout` (and the file's layout
diagram) reserve the value bytes at `key_ptr + key_len`.  On a node
initialised with height 1, key_len 2, value_len 5 the accessor yields
address 21 = key_ptr + value_len, but the layout places the value region at
offset 18 = key_ptr + key_len; the claimed `value_ptr = key_ptr + key_len`
fails whenever `key_len != value_len`. -/
theorem C2_value_ptr_eval :
    Node.value_ptr (Node.init_node (fun _ => 0) 0 1 2 5) 0 = 21 ∧
    Node.key_ptr (Node.init_node (fun _ => 0) 0 1 2 5) 0 = 16 ∧
    Node.keyOffsetOfLayout 1 2 = 16 ∧
    Node.valueOffsetOfLayout 1 2 5 = 18 :=
  ⟨rfl, rfl, rfl, rfl⟩

/-- Claim C9: `Node::init_node` makes the header fields read back exactly the
arguments (height, key_len, value_len as typed: u16, u16, u32) and leaves
all `height` tower slots initialised to null. -/
theorem C9_init_node_readback (m : Mem) (a h kl vl : Nat)
    (hh : h < 2 ^ 16) (hkl : kl < 2 ^ 16) (hvl : vl < 2 ^ 32) :
    Node.heightOf (Node.init_node m a h kl vl) a = h ∧
    Node.keyLenOf (Node.init_node m a h kl vl) a = kl ∧
    Node.valueLenOf (Node.init_node m a h kl vl) a = vl ∧
    ∀ i, i < h → Node.towerSlot (Node.init_node m a h kl vl) a i = 0 := by
  unfold Node.init_node Node.heightOf Node.keyLenOf Node.valueLenOf
    Node.towerSlot
  have hdrle : ∀ x, x < a + Node.towerOffset →
      Node.towerInit (Node.writeHeader m a h kl vl) (a + Node.towerOffset) h x =
      Node.writeHeader m a h kl vl x :=
    fun x hx => towerInit_frame _ _ _ _ hx
  refine ⟨?_, ?_, ?_, ?_⟩
  · rw [r16_eq_of _ (Node.writeHeader m a h kl vl) a
      (fun x h1 h2 => hdrle x (by simp only [Node.towerOffset]; omega))]
    unfold Node.writeHeader
    rw [r16_eq_of _ (w16 (w16 m a h) (a + 2) kl) a
      (fun x h1 h2 => w32_frame _ _ _ _ (by omega)),
      r16_eq_of _ (w16 m a h) a
      (fun x h1 h2 => w16_frame _ _ _ _ (by omega) (by omega)),
      r16_w16 _ _ _ hh]
  · rw [r16_eq_of _ (Node.writeHeader m a h kl vl) (a + 2)
      (fun x h1 h2 => hdrle x (by simp only [Node.towerOffset]; omega))]
    unfold Node.writeHeader
    rw [r16_eq_of _ (w16 (w16 m a h) (a + 2) kl) (a + 2)
      (fun x h1 h2 => w32_frame _ _ _ _ (by omega)),
      r16_w16 _ _ _ hkl]
  · rw [r32_eq_of _ (Node.writeHeader m a h kl vl) (a + 4)
      (fun x h1 h2 => hdrle x (by simp only [Node.towerOffset]; omega))]
    unfold Node.writeHeader
    rw [r32_w32 _ _ _ hvl]
  · intro i hi
    exact towerInit_slot _ _ h i hi

/-- Witness for C9 at a concrete node: height 1, key_len 2, value_len 5
written at address 0 of zeroed memory reads back height 1. -/
theorem C9_init_node_readback_witness :
    Node.heightOf (Node.init_node (fun _ => 0) 0 1 2 5) 0 = 1 :=
  (C9_init_node_readback (fun _ => 0) 0 1 2 5 (by decide) (by decide)
    (by decide)).1

/-- Claim C8: `Local::pin` records the participant's local epoch as the observed
global epoch and sets its guarded flag; the global epoch then advances by
one exactly when no guarded participant (in the post-update registry, which
includes the pinning participant itself) has a local epoch lagging the
observed epoch, and is left unchanged when some guarded participant lags. -/
theorem C8_pin_epoch_advance (g : Ebr.Global) (i : Nat)
    (hi : i < g.local_list.length) :
    (Ebr.pin g i).local_list.get? i = some ⟨g.global_epoch, true⟩ ∧
    ((∃ l ∈ (Ebr.pin g i).local_list, l.guarded = true ∧
        l.local_epoch < g.global_epoch) →
      (Ebr.pin g i).global_epoch = g.global_epoch) ∧
    ((∀ l ∈ (Ebr.pin g i).local_list, l.guarded = true →
        g.global_epoch ≤ l.local_epoch) →
      (Ebr.pin g i).global_epoch = g.global_epoch + 1) := by
  have hlist : (Ebr.pin g i).local_list =
      g.local_list.set i ⟨g.global_epoch, true⟩ := by
    unfold Ebr.pin
    dsimp only
    split <;> rfl
  refine ⟨?_, ?_, ?_⟩
  · rw [hlist]
    exact List.get?_set_eq_of_lt _ (by simpa using hi)
  · intro hlag
    rw [hlist] at hlag
    have hany : ((g.local_list.set i ⟨g.global_epoch, true⟩).any
        (fun l => l.guarded && decide (l.local_epoch < g.global_epoch))) = true := by
      rw [List.any_eq_true]
      obtain ⟨l, hmem, hg, hlt⟩ := hlag
      exact ⟨l, hmem, by simp [hg, hlt]⟩
    unfold Ebr.pin
    dsimp only
    rw [if_pos hany]
  · intro hnolag
    rw [hlist] at hnolag
    have hany : ((g.local_list.set i ⟨g.global_epoch, true⟩).any
        (fun l => l.guarded && decide (l.local_epoch < g.global_epoch))) = false := by
      rw [List.any_eq_false]
      intro l hmem hp
      simp only [Bool.and_eq_true, decide_eq_true_eq] at hp
      exact absurd hp.2 (Nat.not_lt.mpr (hnolag l hmem hp.1))
    unfold Ebr.pin
    dsimp only
    rw [if_neg (by simp [hany])]

/-- Witness for C8: pinning participant 0 of a registry whose participant 1
is guarded at a lagging epoch records epoch 5 and leaves the global epoch
unchanged. -/
theorem C8_pin_epoch_advance_witness :
    (Ebr.pin ⟨5, [⟨0, false⟩, ⟨3, true⟩]⟩ 0).local_list.get? 0 =
      some ⟨5, true⟩ :=
  (C8_pin_epoch_advance ⟨5, [⟨0, false⟩, ⟨3, true⟩]⟩ 0 (by decide)).1

end VictoryDB
